import Mathlib

/-!
Verification development for a browser rich text editing component
(src/src/components/RichTextEditor.tsx).

The component manipulates a DOM tree through host primitives
(Range.surroundContents, Element.closest, classList, querySelector,
getComputedStyle).  We give a shallow embedding: the DOM tree is an
inductive rose tree, a selection range is a description of boundary
points inside that tree, and each host primitive is modelled after its
behaviour in the DOM and CSSOM standards.  Each editor handler from the
source file is then translated into a pure function over this model.

Modelling notes on host primitives (these are properties of the browser
platform, not of the component code):
- Element style attributes serialize as "prop: value;" declarations
  joined by single spaces, with a space after the colon (CSSOM,
  serialize a CSS declaration block).  Assigning a string to el.style
  sets cssText, which stores the parsed declarations.
- Range.surroundContents throws InvalidStateError when the range
  partially contains a non-text node (a range that is not a single
  well-nested slice); otherwise it extracts the contents, inserts the
  new parent at the start boundary (splitting a text container, both
  halves kept even when empty) and makes the range select the new
  parent.  A collapsed range yields an empty wrapper element.
- Element.closest starts the search at the element itself and walks
  the ancestor chain upward.
- Removing a node from the tree collapses ranges that lived inside it
  to the position of the removed node in its old parent.
- Assigning innerHTML copies serialized children through the parser;
  for the normalized trees used here (no adjacent text siblings
  produced by the copies we model) this round trip is the identity, so
  the model copies the child forest directly.
-/

set_option maxRecDepth 8000

namespace RTE

mutual
/-- Document tree node: a text node or an element with a tag, inline
style declarations, class list, other attributes and children. -/
inductive DNode : Type where
  | text (s : String)
  | elem (tag : String) (style : List (String × String)) (classes : List String)
         (attrs : List (String × String)) (children : DForest)
deriving Repr, DecidableEq
inductive DForest : Type where
  | nil
  | cons (head : DNode) (tail : DForest)
deriving Repr, DecidableEq
end

/-- Child forest as a Lean list. -/
def DForest.toList : DForest → List DNode
  | .nil => []
  | .cons c cs => c :: cs.toList

/-- Child forest from a Lean list. -/
def DForest.ofList : List DNode → DForest
  | [] => .nil
  | c :: cs => .cons c (DForest.ofList cs)

/-- Short constructor for an element node with children given as a list. -/
def el (tag : String) (style : List (String × String)) (classes : List String)
    (attrs : List (String × String)) (kids : List DNode) : DNode :=
  .elem tag style classes attrs (DForest.ofList kids)

/-- Children of a node as a list (empty for text nodes). -/
def kidsOf : DNode → List DNode
  | .text _ => []
  | .elem _ _ _ _ kids => kids.toList

/-- Replace the children of an element node. -/
def setKids : DNode → List DNode → DNode
  | .text s, _ => .text s
  | .elem t sd cl ats _, ks => .elem t sd cl ats (DForest.ofList ks)

/-- Node addressed by a path of child indices from the given root. -/
def getNode : List Nat → DNode → Option DNode
  | [], n => some n
  | i :: p, n =>
    match (kidsOf n)[i]? with
    | some c => getNode p c
    | none => none

/-- Apply a function to the element at a given index of a list, leaving
other entries unchanged. -/
def listModifyIdx (f : DNode → DNode) : Nat → List DNode → List DNode
  | _, [] => []
  | 0, a :: l => f a :: l
  | n+1, a :: l => a :: listModifyIdx f n l

/-- Rewrite the node at a path by applying a function to it. -/
def modifyAt (f : DNode → DNode) : List Nat → DNode → DNode
  | [], n => f n
  | i :: p, .elem t sd cl ats kids =>
      .elem t sd cl ats (DForest.ofList (listModifyIdx (modifyAt f p) i kids.toList))
  | _ :: _, n => n

/-- Paths of the node itself and of all its ancestors, nearest first. -/
def ancestorPaths (p : List Nat) : List (List Nat) :=
  ((List.range (p.length + 1)).reverse).map (fun n => p.take n)

/-- Tag of the node at a path, when it is an element. -/
def tagAt (root : DNode) (p : List Nat) : Option String :=
  match getNode p root with
  | some (.elem t _ _ _ _) => some t
  | _ => none

/-- Model of hasParentWithTag from the source: walk from the element at
the path upward through parent elements and test the tag names. -/
def hasParentWithTag (root : DNode) (p : List Nat) (tagNames : List String) : Bool :=
  (ancestorPaths p).any (fun q =>
    match tagAt root q with
    | some t => tagNames.contains t
    | none => false)

/-- Model of Element.closest with a tag list selector: the nearest
self-or-ancestor element whose tag is in the list, as a path. -/
def closestPath (root : DNode) (p : List Nat) (vocab : List String) : Option (List Nat) :=
  (ancestorPaths p).find? (fun q =>
    match tagAt root q with
    | some t => vocab.contains t
    | none => false)

/-- Serialization of inline style declarations per CSSOM: each
declaration is "prop" ++ ": " ++ "value" ++ ";", joined by spaces. -/
def serializeDecls (decls : List (String × String)) : String :=
  String.intercalate " " (decls.map (fun d => d.1 ++ ": " ++ d.2 ++ ";"))

/-- Is the first character list a prefix of the second? -/
def isPrefixList : List Char → List Char → Bool
  | [], _ => true
  | _ :: _, [] => false
  | p :: ps, c :: cs => p == c && isPrefixList ps cs

/-- Does the first character list occur as a contiguous slice of the
second? -/
def occursList : List Char → List Char → Bool
  | pat, [] => pat.isEmpty
  | pat, c :: cs => isPrefixList pat (c :: cs) || occursList pat cs

/-- Substring test used to model the attribute selector [style*=pat]. -/
def containsSub (pat s : String) : Bool :=
  occursList pat.data s.data

/-- Model of the host startsWith test on URLs. -/
def strStartsWith (s pre : String) : Bool :=
  isPrefixList pre.data s.data

/-- Model of the host trim on selection text: strip leading and
trailing whitespace. -/
def strTrim (s : String) : String :=
  ⟨((s.data.dropWhile Char.isWhitespace).reverse.dropWhile Char.isWhitespace).reverse⟩

/-- Model of the host toLowerCase over the ASCII keys the handler
compares. -/
def charLower (c : Char) : Char :=
  if c.isUpper then Char.ofNat (c.toNat + 32) else c

def strToLower (s : String) : String := ⟨s.data.map charLower⟩

/-- Model of the host parseInt on the menu tokens: leading decimal
digits as a number, zero when the string starts with no digit (the
handler guards the empty string before calling it). -/
def parseNatD (s : String) : Nat :=
  (s.data.foldl (fun acc c => match acc with
    | none => if c.isDigit then some (c.toNat - 48) else none
    | some n => if c.isDigit then some (n * 10 + (c.toNat - 48)) else some n) none).getD 0

/-- Character escaping of the host innerHTML serialization. -/
def escChar (c : Char) : List Char :=
  if c = '&' then ['&', 'a', 'm', 'p', ';']
  else if c = '<' then ['&', 'l', 't', ';']
  else if c = '>' then ['&', 'g', 't', ';']
  else [c]

def escapeHtml (s : String) : String := ⟨s.data.flatMap escChar⟩

/-- Attribute part of a serialized start tag. -/
def attrsString (style : List (String × String)) (classes : List String)
    (attrs : List (String × String)) : String :=
  (if style.isEmpty then "" else " style=\x22" ++ serializeDecls style ++ "\x22")
  ++ (if classes.isEmpty then "" else " class=\x22" ++ String.intercalate " " classes ++ "\x22")
  ++ String.join (attrs.map (fun a => " " ++ a.1 ++ "=\x22" ++ a.2 ++ "\x22"))

mutual
/-- Model of innerHTML serialization. -/
def serializeNode : DNode → String
  | .text s => escapeHtml s
  | .elem t sd cl ats kids =>
    "<" ++ t ++ attrsString sd cl ats ++ ">" ++ serializeForest kids ++ "</" ++ t ++ ">"
def serializeForest : DForest → String
  | .nil => ""
  | .cons c cs => serializeNode c ++ serializeForest cs
end

/-- innerHTML of a node: serialization of its children. -/
def innerHTML (n : DNode) : String :=
  match n with
  | .text _ => ""
  | .elem _ _ _ _ kids => serializeForest kids

mutual
/-- Concatenated text content of a node. -/
def textContentNode : DNode → String
  | .text s => s
  | .elem _ _ _ _ kids => textContentForest kids
def textContentForest : DForest → String
  | .nil => ""
  | .cons c cs => textContentNode c ++ textContentForest cs
end

def textContentList (l : List DNode) : String :=
  String.join (l.map textContentNode)

mutual
/-- Does the node or any descendant carry a style attribute whose CSSOM
serialization contains the given substring?  This models
querySelector with the selector [style*=pat] over a scratch container
holding the listed nodes. -/
def nodeHasStyleSub (pat : String) : DNode → Bool
  | .text _ => false
  | .elem _ sd _ _ kids => containsSub pat (serializeDecls sd) || forestHasStyleSub pat kids
def forestHasStyleSub (pat : String) : DForest → Bool
  | .nil => false
  | .cons c cs => nodeHasStyleSub pat c || forestHasStyleSub pat cs
end

def listHasStyleSub (pat : String) (l : List DNode) : Bool :=
  l.any (nodeHasStyleSub pat)

mutual
/-- Number of elements with a given tag in the tree. -/
def countTagNode (tg : String) : DNode → Nat
  | .text _ => 0
  | .elem t _ _ _ kids => (if t = tg then 1 else 0) + countTagForest tg kids
def countTagForest (tg : String) : DForest → Nat
  | .nil => 0
  | .cons c cs => countTagNode tg c + countTagForest tg cs
end

/-- Selection range over the document tree, as used by the component.
The three shapes cover the ranges reachable in this development:
- inText: both boundary points inside the text node child k of the
  element at parent, character offsets i and j.  Such a range partially
  contains no node, so it is a valid single well-nested slice.
- overNodes: boundary points (element at parent, i) and (element at
  parent, j), selecting whole children i to j.  Also well nested.
- cross: start inside the single text child of element child k of
  parent, offset ik; end inside text child m of parent, offset jm, with
  k below m.  The element child k is an inclusive ancestor of the start
  container but not of the end container, hence partially contained;
  per the DOM standard surroundContents throws InvalidStateError on
  such a range. -/
inductive DRange : Type where
  | inText (parent : List Nat) (k i j : Nat)
  | overNodes (parent : List Nat) (i j : Nat)
  | cross (parent : List Nat) (k ik m jm : Nat)
deriving Repr, DecidableEq

/-- Collapsed flag of a range (cursor rather than span). -/
def DRange.collapsed : DRange → Bool
  | .inText _ _ i j => i == j
  | .overNodes _ i j => i == j
  | .cross .. => false

/-- Path of the common ancestor container of the range. -/
def containerPath : DRange → List Nat
  | .inText parent k _ _ => parent ++ [k]
  | .overNodes parent _ _ => parent
  | .cross parent _ _ _ _ => parent

/-- Path of the start container node of the range. -/
def startContainerPath : DRange → List Nat
  | .inText parent k _ _ => parent ++ [k]
  | .overNodes parent _ _ => parent
  | .cross parent k _ _ _ => parent ++ [k, 0]

/-- The pattern (node is a text node ? node.parentElement : node as
element), applied to the node at a path. -/
def elementPathOf (root : DNode) (p : List Nat) : Option (List Nat) :=
  match getNode p root with
  | some (.text _) => if p = [] then none else some p.dropLast
  | some (.elem _ _ _ _ _) => some p
  | none => none

/-- Substring of s from character i up to character j. -/
def sliceStr (s : String) (i j : Nat) : String := (s.drop i).take (j - i)

/-- Model of Range.cloneContents, returning the child list of the
resulting fragment. -/
def cloneContents (root : DNode) : DRange → List DNode
  | .inText parent k i j =>
    if i = j then [] else
    match getNode (parent ++ [k]) root with
    | some (.text s) => [.text (sliceStr s i j)]
    | _ => []
  | .overNodes parent i j =>
    match getNode parent root with
    | some (.elem _ _ _ _ kids) => (kids.toList.drop i).take (j - i)
    | _ => []
  | .cross parent k ik m jm =>
    match getNode parent root with
    | some (.elem _ _ _ _ kids) =>
      let l := kids.toList
      (match l[k]? with
       | some (.elem t sd cl ats grand) =>
         (match grand.toList with
          | [.text s] => [el t sd cl ats [.text (s.drop ik)]]
          | _ => [])
       | _ => [])
      ++ ((l.drop (k+1)).take (m - (k+1)))
      ++ (match l[m]? with
          | some (.text s2) => [DNode.text (s2.take jm)]
          | _ => [])
    | _ => []

/-- Model of Selection.toString: the text of the selected contents. -/
def rangeToString (root : DNode) (r : DRange) : String :=
  textContentList (cloneContents root r)

/-- First style declaration value for a property. -/
def styleLookup (decls : List (String × String)) (prop : String) : Option String :=
  (decls.find? (fun d => d.1 == prop)).map (fun d => d.2)

/-- Attribute lookup on the modelled attribute list. -/
def attrLookup (ats : List (String × String)) (name : String) : Option String :=
  (ats.find? (fun d => d.1 == name)).map (fun d => d.2)

/-- Approximation of getComputedStyle for the three properties the
component reads: the nearest self-or-ancestor declaration of the
property wins (these properties inherit), defaults apply when no
declaration is found, and the declared font-weight keywords are
normalized to the numeric used values the browser reports. -/
def computedStyleProp (root : DNode) (p : List Nat) (prop : String) : String :=
  let declared := (ancestorPaths p).findSome? (fun q =>
    match getNode q root with
    | some (.elem _ sd _ _ _) => styleLookup sd prop
    | _ => none)
  match declared with
  | some v =>
    if prop = "font-weight" then
      if v = "bold" then "700" else if v = "normal" then "400" else v
    else v
  | none =>
    if prop = "font-weight" then "400"
    else if prop = "font-style" then "normal"
    else "none"

/-- Model of hasStyle from the source.  For a collapsed selection it
compares the computed style of the parent element of the start
container; otherwise it clones the range contents into a scratch
container and runs querySelector with the selector
[style*="prop:value"], an existential substring test over serialized
style attributes (note the selector string has no space after the
colon). -/
def hasStyle (root : DNode) (r : DRange) (styleProp value : String) : Bool :=
  if r.collapsed then
    match elementPathOf root (startContainerPath r) with
    | some ep => computedStyleProp root ep styleProp == value
    | none => false
  else
    listHasStyleSub (styleProp ++ ":" ++ value) (cloneContents root r)

/-- Toolbar formatting state mirrored by the component signals, with
the initial signal values as defaults. -/
structure EditorState where
  isBold : Bool := false
  isItalic : Bool := false
  isUnderline : Bool := false
  isStrikethrough : Bool := false
  currentBlock : String := "p"
deriving Repr, DecidableEq

/-- Block vocabulary of the closest selector in updateEditorState. -/
def blockVocab : List String := ["h1", "h2", "h3", "p", "div", "li", "ul", "ol"]

/-- Model of updateEditorState: derive the formatting state from the
tree and selection, and re-serialize the content.  The block signal is
only written when the closest call finds a block element; otherwise the
previous value persists. -/
def updateEditorState (root : DNode) (r : DRange) (st : EditorState) : EditorState × String :=
  let content := innerHTML root
  match elementPathOf root (containerPath r) with
  | none => (st, content)
  | some ep =>
    let bold := hasParentWithTag root ep ["b", "strong"]
      || hasStyle root r "font-weight" "bold" || hasStyle root r "font-weight" "700"
    let ital := hasParentWithTag root ep ["i", "em"] || hasStyle root r "font-style" "italic"
    let und := hasParentWithTag root ep ["u"] || hasStyle root r "text-decoration" "underline"
    let strk := hasParentWithTag root ep ["s", "strike", "del"]
      || hasStyle root r "text-decoration" "line-through"
    let blk := match closestPath root ep blockVocab with
      | some q => (tagAt root q).getD st.currentBlock
      | none => st.currentBlock
    ({ isBold := bold, isItalic := ital, isUnderline := und,
       isStrikethrough := strk, currentBlock := blk }, content)

/-- Model of Range.surroundContents with a freshly created element
carrying the given tag, style declarations and attributes.  A range
that partially contains an element (the cross shape) makes the DOM
throw InvalidStateError; the error propagates to the caller as an
Except error.  For a text container the extraction and the insertNode
split leave the two text halves in place (possibly empty) with the new
wrapper between them; a collapsed range wraps an empty fragment.  The
returned range selects the new parent, per the standard. -/
def surroundContents (root : DNode) (r : DRange) (tag : String)
    (style : List (String × String)) (attrs : List (String × String)) :
    Except String (DNode × DRange) :=
  match r with
  | .cross .. => .error "InvalidStateError"
  | .inText parent k i j =>
    match getNode parent root with
    | some (.elem _ _ _ _ kids) =>
      let l := kids.toList
      match l[k]? with
      | some (.text s) =>
        if i ≤ j ∧ j ≤ s.length then
          let wrapped : List DNode := if i = j then [] else [.text (sliceStr s i j)]
          let newKids := l.take k
            ++ [DNode.text (s.take i), el tag style [] attrs wrapped, DNode.text (s.drop j)]
            ++ l.drop (k+1)
          .ok (modifyAt (fun n => setKids n newKids) parent root,
               .overNodes parent (k+1) (k+2))
        else .error "IndexSizeError"
      | _ => .error "InvalidNodeTypeError"
    | _ => .error "InvalidNodeTypeError"
  | .overNodes parent i j =>
    match getNode parent root with
    | some (.elem _ _ _ _ kids) =>
      let l := kids.toList
      if i ≤ j ∧ j ≤ l.length then
        let newKids := l.take i
          ++ [el tag style [] attrs ((l.drop i).take (j - i))]
          ++ l.drop j
        .ok (modifyAt (fun n => setKids n newKids) parent root,
             .overNodes parent i (i+1))
      else .error "IndexSizeError"
    | _ => .error "InvalidNodeTypeError"

/-- Result of a mutating handler: new tree, the live selection range
after the mutation, the toolbar state, and the content emitted through
updateEditorState (none when the handler returned before reaching it). -/
structure MutResult where
  tree : DNode
  range : DRange
  state : EditorState
  content : Option String
deriving Repr, DecidableEq

/-- Canonical wrapper data of each inline format accepted by
toggleFormat: element tag, style property and value (from the
Object.assign calls in the source). -/
def formatSpec : String → Option (String × String × String)
  | "bold" => some ("strong", "font-weight", "bold")
  | "italic" => some ("em", "font-style", "italic")
  | "underline" => some ("u", "text-decoration", "underline")
  | "strikeThrough" => some ("s", "text-decoration", "line-through")
  | _ => none

/-- Model of toggleFormat: wrap the current range in the format element
via surroundContents (no catch in the source, so a DOM exception
propagates), re-add the mutated range to the selection and run
updateEditorState.  An unrecognized format skips the wrap. -/
def toggleFormat (root : DNode) (r : DRange) (st : EditorState) (format : String) :
    Except String MutResult :=
  match formatSpec format with
  | none =>
    let u := updateEditorState root r st
    .ok ⟨root, r, u.1, some u.2⟩
  | some (tag, prop, v) =>
    match surroundContents root r tag [(prop, v)] [] with
    | .error e => .error e
    | .ok (t2, r2) =>
      let u := updateEditorState t2 r2 st
      .ok ⟨t2, r2, u.1, some u.2⟩

/-- Result of handleCreateLink, with the user interaction flags: an
alert for a missing selection, and the blocking URL prompt. -/
structure LinkResult where
  tree : DNode
  range : DRange
  state : EditorState
  content : Option String
  alerted : Bool
  prompted : Bool
deriving Repr, DecidableEq

/-- Attributes assigned to the created anchor: href with the https
prefix applied when the entered URL does not start with http, a blank
target and the safe rel tokens. -/
def linkAttrs (url : String) : List (String × String) :=
  [("href", if strStartsWith url "http" then url else "https://" ++ url),
   ("target", "_blank"),
   ("rel", "noopener noreferrer")]

/-- Model of handleCreateLink.  The prompt input is none when the user
cancels the prompt; the source treats a cancelled and an empty URL the
same way.  surroundContents failures propagate (no catch in the
source). -/
def handleCreateLink (root : DNode) (r : DRange) (promptInput : Option String)
    (st : EditorState) : Except String LinkResult :=
  if strTrim (rangeToString root r) = "" then
    .ok ⟨root, r, st, none, true, false⟩
  else
    match promptInput with
    | none => .ok ⟨root, r, st, none, false, true⟩
    | some url =>
      if url = "" then .ok ⟨root, r, st, none, false, true⟩
      else
        match surroundContents root r "a" [] (linkAttrs url) with
        | .error e => .error e
        | .ok (t2, r2) =>
          let u := updateEditorState t2 r2 st
          .ok ⟨t2, r2, u.1, some u.2, false, true⟩

/-- Selector vocabulary of the closest call in handleHeadingChange. -/
def headingVocab : List String := ["h1", "h2", "h3", "p", "div"]

/-- Live range after a node at path q was replaced in its parent: per
the DOM standard, a range inside the removed node collapses to the slot
of the removed node in its old parent. -/
def rangeAfterReplace (q : List Nat) (r : DRange) : DRange :=
  match q.getLast? with
  | some idx => .overNodes q.dropLast idx idx
  | none => r

/-- Model of handleHeadingChange.  The source resolves the block as
commonAncestorContainer.parentElement closest over the heading
vocabulary, so the search starts at the parent of the container node
(skipping the container itself when it is an element).  When a block is
found, a fresh element of the requested tag receives its innerHTML and
replaces it; the model treats the innerHTML copy as a copy of the child
forest.  Replacing the model root would detach the editing surface
itself (its parent lives outside the model), leaving the modelled tree
unchanged.  Without a block, the selected range itself is wrapped. -/
def handleHeadingChange (root : DNode) (r : DRange) (selectValue : String)
    (st : EditorState) : Except String MutResult :=
  let value := if selectValue = "" then "p" else selectValue
  let cp := containerPath r
  if cp = [] then
    -- the parent of the editing surface root lies outside the model;
    -- closest finds the component wrapper there and replaceChild swaps
    -- out the wrapper, while the surface keeps its own content: within
    -- the modelled tree nothing changes
    let u := updateEditorState root r st
    .ok ⟨root, r, u.1, some u.2⟩
  else
    match closestPath root cp.dropLast headingVocab with
    | some q =>
      match getNode q root with
      | some (.elem _ _ _ _ kids) =>
        if q = [] then
          -- replacing the surface root swaps it out of its (unmodelled)
          -- parent; the detached surface keeps its content
          let u := updateEditorState root r st
          .ok ⟨root, r, u.1, some u.2⟩
        else
          let t2 := modifyAt (fun _ => .elem value [] [] [] kids) q root
          let r2 := rangeAfterReplace q r
          let u := updateEditorState t2 r2 st
          .ok ⟨t2, r2, u.1, some u.2⟩
      | _ =>
        let u := updateEditorState root r st
        .ok ⟨root, r, u.1, some u.2⟩
    | none =>
      match surroundContents root r value [] [] with
      | .error e => .error e
      | .ok (t2, r2) =>
        let u := updateEditorState t2 r2 st
        .ok ⟨t2, r2, u.1, some u.2⟩

/-- Model of handleFontSizeChange: parseInt the menu token, wrap the
range in a span with inline font-size of token times four plus twelve
pixels.  surroundContents failures propagate. -/
def handleFontSizeChange (root : DNode) (r : DRange) (sizeValue : String)
    (st : EditorState) : Except String MutResult :=
  if sizeValue = "" then .ok ⟨root, r, st, none⟩
  else
    let n := parseNatD sizeValue
    match surroundContents root r "span" [("font-size", toString (n * 4 + 12) ++ "px")] [] with
    | .error e => .error e
    | .ok (t2, r2) =>
      let u := updateEditorState t2 r2 st
      .ok ⟨t2, r2, u.1, some u.2⟩

/-- The three mutually exclusive alignment marker classes. -/
def alignClassNames : List String := ["text-left", "text-center", "text-right"]

/-- Setting a style property through CSSOM: update the declaration in
place when it exists, otherwise append it. -/
def setDecl (decls : List (String × String)) (prop v : String) : List (String × String) :=
  if decls.any (fun d => d.1 == prop) then
    decls.map (fun d => if d.1 == prop then (d.1, v) else d)
  else decls ++ [(prop, v)]

/-- Model of formatAlignment: resolve the block element as the
container (parent of a text container), remove the three alignment
classes, then add the class and inline text-align of the requested
alignment.  updateEditorState only runs when the block resolved. -/
def formatAlignment (root : DNode) (r : DRange) (alignment : String)
    (st : EditorState) : MutResult :=
  match elementPathOf root (containerPath r) with
  | none => ⟨root, r, st, none⟩
  | some bp =>
    match getNode bp root with
    | some (.elem tg sd cl ats kids) =>
      let cl2 := cl.filter (fun c => !(alignClassNames.contains c))
      let upd :=
        if alignment = "left" then some ("text-left", "left")
        else if alignment = "center" then some ("text-center", "center")
        else if alignment = "right" then some ("text-right", "right")
        else none
      let n2 := match upd with
        | some (cls, v) => DNode.elem tg (setDecl sd "text-align" v) (cl2 ++ [cls]) ats kids
        | none => DNode.elem tg sd cl2 ats kids
      let t2 := modifyAt (fun _ => n2) bp root
      let u := updateEditorState t2 r st
      ⟨t2, r, u.1, some u.2⟩
    | _ => ⟨root, r, st, none⟩

/-- Model of toggleList.  The nearest list item is resolved with
closest from the container element (self-inclusive).  Inside a list of
the requested type the item becomes a paragraph with the same inner
content.  Inside any other parent the item itself is replaced by a new
list of the requested type that receives the item innerHTML and then an
appended extra item with the same innerHTML again.  Without a list item
a new list is inserted at the selection, extracting a non-collapsed
selection into the single item, and the selection collapses to the end
of the item contents. -/
def toggleList (root : DNode) (r : DRange) (ty : String) (st : EditorState) : MutResult :=
  let liPath : Option (List Nat) :=
    match elementPathOf root (containerPath r) with
    | some ep => closestPath root ep ["li"]
    | none => none
  match liPath with
  | some q =>
    match getNode q root with
    | some (.elem _ _ _ _ liKids) =>
      let parentTag : Option String := if q = [] then none else tagAt root q.dropLast
      if parentTag = some ty then
        let t2 := modifyAt (fun _ => .elem "p" [] [] [] liKids) q root
        let r2 := rangeAfterReplace q r
        let u := updateEditorState t2 r2 st
        ⟨t2, r2, u.1, some u.2⟩
      else
        if q = [] then
          let u := updateEditorState root r st
          ⟨root, r, u.1, some u.2⟩
        else
          let t2 := modifyAt
            (fun _ => .elem ty [] [] []
              (DForest.ofList (liKids.toList ++ [.elem "li" [] [] [] liKids]))) q root
          let r2 := rangeAfterReplace q r
          let u := updateEditorState t2 r2 st
          ⟨t2, r2, u.1, some u.2⟩
    | _ =>
      let u := updateEditorState root r st
      ⟨root, r, u.1, some u.2⟩
  | none =>
    match r with
    | .inText parent k i j =>
      match getNode parent root with
      | some (.elem _ _ _ _ kids) =>
        let l := kids.toList
        match l[k]? with
        | some (.text s) =>
          let item : List DNode := if i = j then [] else [.text (sliceStr s i j)]
          let newKids := l.take k
            ++ [DNode.text (s.take i), el ty [] [] [] [el "li" [] [] [] item],
                DNode.text (s.drop j)]
            ++ l.drop (k+1)
          let t2 := modifyAt (fun n => setKids n newKids) parent root
          let r2 : DRange := .overNodes (parent ++ [k+1, 0]) item.length item.length
          let u := updateEditorState t2 r2 st
          ⟨t2, r2, u.1, some u.2⟩
        | _ =>
          let u := updateEditorState root r st
          ⟨root, r, u.1, some u.2⟩
      | _ =>
        let u := updateEditorState root r st
        ⟨root, r, u.1, some u.2⟩
    | .overNodes parent i j =>
      match getNode parent root with
      | some (.elem _ _ _ _ kids) =>
        let l := kids.toList
        let item := (l.drop i).take (j - i)
        let newKids := l.take i ++ [el ty [] [] [] [el "li" [] [] [] item]] ++ l.drop j
        let t2 := modifyAt (fun n => setKids n newKids) parent root
        let r2 : DRange := .overNodes (parent ++ [i, 0]) item.length item.length
        let u := updateEditorState t2 r2 st
        ⟨t2, r2, u.1, some u.2⟩
      | _ =>
        let u := updateEditorState root r st
        ⟨root, r, u.1, some u.2⟩
    | .cross parent k ik m jm =>
      match getNode parent root with
      | some (.elem _ _ _ _ kids) =>
        let l := kids.toList
        match l[k]?, l[m]? with
        | some (.elem te sde cle atse grand), some (.text s2) =>
          match grand.toList with
          | [.text s] =>
            let item := [el te sde cle atse [.text (s.drop ik)]]
              ++ (l.drop (k+1)).take (m - (k+1)) ++ [DNode.text (s2.take jm)]
            let newKids := l.take k
              ++ [el te sde cle atse [.text (s.take ik)], el ty [] [] [] [el "li" [] [] [] item],
                  DNode.text (s2.drop jm)]
              ++ l.drop (m+1)
            let t2 := modifyAt (fun n => setKids n newKids) parent root
            let r2 : DRange := .overNodes (parent ++ [k+1, 0]) item.length item.length
            let u := updateEditorState t2 r2 st
            ⟨t2, r2, u.1, some u.2⟩
          | _ =>
            let u := updateEditorState root r st
            ⟨root, r, u.1, some u.2⟩
        | _, _ =>
          let u := updateEditorState root r st
          ⟨root, r, u.1, some u.2⟩
      | _ =>
        let u := updateEditorState root r st
        ⟨root, r, u.1, some u.2⟩

/-- Keyboard event data read by handleKeyDown. -/
structure KeyEvent where
  key : String
  ctrlKey : Bool
  metaKey : Bool
deriving Repr, DecidableEq

/-- Editor operation dispatched by the keydown handler. -/
inductive EditorCmd : Type where
  | toggleFmt (format : String)
  | execUndo
  | execRedo
deriving Repr, DecidableEq

/-- Model of handleKeyDown: with a control or meta modifier the handler
calls preventDefault first and then dispatches on the lowercased key;
the default branch runs no editor operation.  The first component is
whether preventDefault was invoked. -/
def handleKeyDown (e : KeyEvent) : Bool × Option EditorCmd :=
  if e.ctrlKey || e.metaKey then
    if strToLower e.key = "b" then (true, some (.toggleFmt "bold"))
    else if strToLower e.key = "i" then (true, some (.toggleFmt "italic"))
    else if strToLower e.key = "u" then (true, some (.toggleFmt "underline"))
    else if strToLower e.key = "z" then (true, some .execUndo)
    else if strToLower e.key = "y" then (true, some .execRedo)
    else (true, none)
  else (false, none)

/-! Concrete document fixtures used by the claim instances below. -/

/-- Editing surface holding one paragraph with the text Hello. -/
def exTree1 : DNode := el "div" [] [] [] [el "p" [] [] [] [.text "Hello"]]

/-- Selection of the letters ell inside the Hello paragraph. -/
def exRange1 : DRange := .inText [0] 0 1 4

/-- Paragraph whose first child is a bold element: a selection from
inside the bold text to the following sibling text partially contains
the bold element. -/
def exTreeCross : DNode :=
  el "div" [] [] [] [el "p" [] [] [] [el "b" [] [] [] [.text "ab"], .text "cd"]]

/-- Unordered list with a single item. -/
def exTreeList : DNode :=
  el "div" [] [] [] [el "ul" [] [] [] [el "li" [] [] [] [.text "x"]]]

/-- Nested container: the selection common ancestor is the paragraph
element itself. -/
def exTreeNestedDiv : DNode :=
  el "div" [] [] [] [el "div" [] [] [] [el "p" [] [] [] [.text "AB"]]]

/-- A span whose chain below the editor root has no block tag. -/
def exTreeSpan : DNode := el "div" [] [] [] [el "span" [] [] [] [.text "x"]]

/-- Editing surface with plain selectable text for link creation. -/
def exTreeLink : DNode := el "div" [] [] [] [.text "example"]

/-- Tree after wrapping the example text in the created anchor. -/
def exLinkResultTree : DNode :=
  el "div" [] [] []
    [.text "", el "a" [] [] (linkAttrs "example.com") [.text "example"], .text ""]

/-- Editing surface with plain selectable text for the font menu. -/
def exTreeFont : DNode := el "div" [] [] [] [.text "hello"]

/-- Tree after wrapping the text in the size three span. -/
def exFontResultTree : DNode :=
  el "div" [] [] []
    [.text "", el "span" [("font-size", "24px")] [] [] [.text "hello"], .text ""]

/-- Paragraph carrying a previous alignment class and an unrelated
class. -/
def exTreeAlign : DNode :=
  el "div" [] [] [] [el "p" [] ["text-left", "big"] [] [.text "t"]]

/-! Bridge lemmas between paths and tree edits. -/

theorem DForest.toList_ofList (l : List DNode) : (DForest.ofList l).toList = l := by
  induction l with
  | nil => rfl
  | cons c cs ih => simp [DForest.ofList, DForest.toList, ih]

theorem getElem?_listModifyIdx_self (f : DNode → DNode) (n : Nat) (l : List DNode) :
    (listModifyIdx f n l)[n]? = (l[n]?).map f := by
  induction l generalizing n with
  | nil => simp [listModifyIdx]
  | cons a l ih =>
    cases n with
    | zero => simp [listModifyIdx]
    | succ m => simpa [listModifyIdx] using ih m

theorem getNode_append (p q : List Nat) (root : DNode) :
    getNode (p ++ q) root = (getNode p root).bind (getNode q) := by
  induction p generalizing root with
  | nil => simp [getNode]
  | cons i p ih =>
    cases h : (kidsOf root)[i]? with
    | none => simp [getNode, h]
    | some c => simp [getNode, h, ih]

theorem getNode_modifyAt (f : DNode → DNode) (p : List Nat) (root n : DNode)
    (h : getNode p root = some n) :
    getNode p (modifyAt f p root) = some (f n) := by
  induction p generalizing root with
  | nil =>
    simp [getNode] at h
    subst h
    simp [getNode, modifyAt]
  | cons i p ih =>
    cases root with
    | text s => simp [getNode, kidsOf] at h
    | elem t sd cl ats kids =>
      cases hk : kids.toList[i]? with
      | none => simp [getNode, kidsOf, hk] at h
      | some c =>
        have h2 : getNode p c = some n := by simpa [getNode, kidsOf, hk] using h
        simp [getNode, modifyAt, kidsOf, DForest.toList_ofList,
              getElem?_listModifyIdx_self, hk, ih c h2]

theorem getNode_setKids_child (parent : List Nat) (root : DNode) (t : String)
    (sd : List (String × String)) (cl : List String) (ats : List (String × String))
    (kids : DForest) (newKids : List DNode) (idx : Nat)
    (h : getNode parent root = some (.elem t sd cl ats kids)) :
    getNode (parent ++ [idx]) (modifyAt (fun n => setKids n newKids) parent root)
      = newKids[idx]? := by
  have h1 := getNode_modifyAt (fun n => setKids n newKids) parent root _ h
  rw [getNode_append, h1]
  cases hn : newKids[idx]? with
  | none => simp [getNode, kidsOf, setKids, DForest.toList_ofList, hn]
  | some c => simp [getNode, kidsOf, setKids, DForest.toList_ofList, hn]

theorem modifyAt_append (f : DNode → DNode) (p q2 : List Nat) (root : DNode) :
    modifyAt f (p ++ q2) root = modifyAt (modifyAt f q2) p root := by
  induction p generalizing root with
  | nil => rfl
  | cons i p2 ih =>
    cases root with
    | text s => rfl
    | elem t sd cl ats kids =>
      have hfun : modifyAt f (p2 ++ q2) = modifyAt (modifyAt f q2) p2 :=
        funext (fun n => ih n)
      simp only [List.cons_append, modifyAt]
      exact congrArg
        (fun g => DNode.elem t sd cl ats (DForest.ofList (listModifyIdx g i kids.toList)))
        hfun

/-- Replacing a child below a path leaves the tag of the element at the
path itself unchanged. -/
theorem tagAt_modifyAt_child (f : DNode → DNode) (q : List Nat) (idx : Nat)
    (root pn : DNode) (hpn : getNode q root = some pn) :
    tagAt (modifyAt f (q ++ [idx]) root) q = tagAt root q := by
  rw [modifyAt_append]
  have h1 := getNode_modifyAt (modifyAt f [idx]) q root pn hpn
  unfold tagAt
  rw [h1, hpn]
  cases pn <;> rfl

/-- Shape of a successful surroundContents: the returned range selects
the freshly inserted wrapper element, which sits in the new tree at the
selected slot and carries exactly the requested tag, style and
attributes. -/
theorem surroundContents_ok (root : DNode) (r : DRange) (tag : String)
    (sd ats : List (String × String)) (t2 : DNode) (r2 : DRange)
    (h : surroundContents root r tag sd ats = .ok (t2, r2)) :
    ∃ p idx, r2 = .overNodes p idx (idx + 1) ∧
      getNode (p ++ [idx]) t2 = some (el tag sd [] ats (cloneContents root r)) := by
  cases r with
  | cross parent k ik m jm => simp [surroundContents] at h
  | inText parent k i j =>
    simp only [surroundContents] at h
    cases hp : getNode parent root with
    | none => rw [hp] at h; simp at h
    | some nd =>
      cases nd with
      | text s => rw [hp] at h; simp at h
      | elem t0 sd0 cl0 ats0 kids0 =>
        simp only [hp] at h
        cases hk : kids0.toList[k]? with
        | none => simp only [hk] at h; simp at h
        | some c =>
          cases c with
          | elem t1 sd1 cl1 ats1 kids1 => simp only [hk] at h; simp at h
          | text s =>
            simp only [hk] at h
            by_cases hij : i ≤ j ∧ j ≤ s.length
            · rw [if_pos hij] at h
              have hpair := Except.ok.inj h
              have ht := congrArg Prod.fst hpair
              have hr := congrArg Prod.snd hpair
              simp only at ht hr
              have hgk : getNode (parent ++ [k]) root = some (.text s) := by
                rw [getNode_append, hp]
                simp [getNode, kidsOf, hk]
              have hcc : cloneContents root (.inText parent k i j)
                  = if i = j then [] else [DNode.text (sliceStr s i j)] := by
                simp only [cloneContents, hgk]
              refine ⟨parent, k + 1, by rw [← hr], ?_⟩
              rw [hcc, ← ht]
              rw [getNode_setKids_child parent root t0 sd0 cl0 ats0 kids0 _ (k + 1) hp]
              have hklen : k < kids0.toList.length := by
                by_contra hge
                rw [List.getElem?_eq_none (Nat.le_of_not_lt hge)] at hk
                exact absurd hk (by simp)
              have htake : (kids0.toList.take k).length = k := by
                simp [List.length_take]
                omega
              rw [List.append_assoc, List.getElem?_append_right (by omega)]
              simp [htake]
            · rw [if_neg hij] at h
              simp at h
  | overNodes parent i j =>
    simp only [surroundContents] at h
    cases hp : getNode parent root with
    | none => rw [hp] at h; simp at h
    | some nd =>
      cases nd with
      | text s => rw [hp] at h; simp at h
      | elem t0 sd0 cl0 ats0 kids0 =>
        simp only [hp] at h
        by_cases hij : i ≤ j ∧ j ≤ kids0.toList.length
        · rw [if_pos hij] at h
          have hpair := Except.ok.inj h
          have ht := congrArg Prod.fst hpair
          have hr := congrArg Prod.snd hpair
          simp only at ht hr
          have hcc : cloneContents root (.overNodes parent i j)
              = (kids0.toList.drop i).take (j - i) := by
            simp only [cloneContents, hp]
          refine ⟨parent, i, by rw [← hr], ?_⟩
          rw [hcc, ← ht]
          rw [getNode_setKids_child parent root t0 sd0 cl0 ats0 kids0 _ i hp]
          have htake : (kids0.toList.take i).length = i := by
            simp [List.length_take]
            omega
          rw [List.append_assoc, List.getElem?_append_right (by omega)]
          simp [htake]
        · rw [if_neg hij] at h
          simp at h

theorem styleLookup_map_setDecl (sd : List (String × String)) (prop v : String)
    (hany : sd.any (fun d => d.1 == prop) = true) :
    styleLookup (sd.map (fun d => if d.1 == prop then (d.1, v) else d)) prop = some v := by
  induction sd with
  | nil => simp at hany
  | cons d sd ih =>
    rw [List.map_cons]
    by_cases hd : (d.1 == prop) = true
    · rw [if_pos hd]
      unfold styleLookup
      rw [List.find?_cons_of_pos _ (by simpa using hd)]
      rfl
    · rw [if_neg hd]
      have htail : sd.any (fun x => x.1 == prop) = true := by
        rcases List.any_eq_true.mp hany with ⟨x, hx, hpx⟩
        rcases List.mem_cons.mp hx with rfl | hxs
        · exact absurd hpx hd
        · exact List.any_eq_true.mpr ⟨x, hxs, hpx⟩
      unfold styleLookup
      rw [List.find?_cons_of_neg _ (by simpa using hd)]
      exact ih htail

theorem styleLookup_append_new (sd : List (String × String)) (prop v : String)
    (hnone : sd.any (fun d => d.1 == prop) = false) :
    styleLookup (sd ++ [(prop, v)]) prop = some v := by
  induction sd with
  | nil =>
    unfold styleLookup
    rw [List.nil_append, List.find?_cons_of_pos _ (by simp)]
    rfl
  | cons d sd ih =>
    cases hpd : (d.1 == prop) with
    | true =>
      rw [List.any_cons, hpd] at hnone
      simp at hnone
    | false =>
      have htail : sd.any (fun x => x.1 == prop) = false := by
        rw [List.any_cons, hpd] at hnone
        simpa using hnone
      rw [List.cons_append]
      unfold styleLookup
      rw [List.find?_cons_of_neg _ (by simp [hpd])]
      exact ih htail

/-- Setting a style property through setDecl makes the property read
back the assigned value. -/
theorem styleLookup_setDecl (sd : List (String × String)) (prop v : String) :
    styleLookup (setDecl sd prop v) prop = some v := by
  by_cases hany : sd.any (fun d => d.1 == prop) = true
  · rw [setDecl, if_pos hany]
    exact styleLookup_map_setDecl sd prop v hany
  · rw [setDecl, if_neg hany]
    have hfalse : sd.any (fun d => d.1 == prop) = false := by
      simp only [Bool.not_eq_true] at hany
      exact hany
    exact styleLookup_append_new sd prop v hfalse

/-- After removing every alignment class and appending one, the class
list holds exactly one alignment class. -/
theorem countP_align (cs : List String) (c : String)
    (hc : alignClassNames.contains c = true) :
    ((cs.filter (fun x => !(alignClassNames.contains x))) ++ [c]).countP
      (fun x => alignClassNames.contains x) = 1 := by
  rw [List.countP_append]
  have h0 : (cs.filter (fun x => !(alignClassNames.contains x))).countP
      (fun x => alignClassNames.contains x) = 0 := by
    rw [List.countP_eq_zero]
    intro a ha
    have h2 := (List.mem_filter.mp ha).2
    simp only [Bool.not_eq_true'] at h2
    simpa using h2
  rw [h0]
  have hcm : c ∈ alignClassNames := by simpa using hc
  simp [List.countP_cons, hcm]

/-- An alignment class other than the appended one is absent from the
rewritten class list. -/
theorem align_not_mem (cl : List String) (c newc : String)
    (hc : alignClassNames.contains c = true) (hne : c ≠ newc) :
    c ∉ ((cl.filter (fun c2 => !(alignClassNames.contains c2))) ++ [newc]) := by
  intro hmem
  rcases List.mem_append.mp hmem with hf | hs
  · have h2 := (List.mem_filter.mp hf).2
    rw [hc] at h2
    simp at h2
  · simp at hs
    exact hne hs

/-! Claim instances. -/

/-- C1: the claim states that toggling bold on a non-collapsed
selection fully contained in plain text and re-running the inspector
reports isBold = true.  On the code this fails: the bold wrapper is
created (one strong element appears in the tree), but the re-inspection
reports isBold = false, because the ancestor walk starts at the parent
of the wrapper and the querySelector probe uses the substring
font-weight:bold, which never matches the serialized style attribute
font-weight: bold; (space after the colon). -/
theorem c1_toggle_bold_not_reported :
    (toggleFormat exTree1 exRange1 {} "bold").toOption.map (fun m => m.state.isBold)
      = some false
    ∧ (toggleFormat exTree1 exRange1 {} "bold").toOption.map
        (fun m => countTagNode "strong" m.tree) = some 1 :=
  ⟨rfl, rfl⟩

/-- C2: the claim states that for collapsed selections or ranges the
wrap primitive cannot satisfy, toggling an inline style is a recoverable
no-op that never propagates a fatal error.  On the code this fails:
a range partially containing an element makes surroundContents throw
InvalidStateError, which propagates uncaught out of toggleFormat, and a
collapsed selection is not a no-op either: it inserts an empty styled
wrapper, changing the serialized tree. -/
theorem c2_wrap_failure_crashes :
    toggleFormat exTreeCross (.cross [0] 0 1 1 1) {} "bold" = .error "InvalidStateError"
    ∧ (toggleFormat exTree1 (.inText [0] 0 2 2) {} "bold").toOption.map
        (fun m => innerHTML m.tree)
      = some "<p>He<strong style=\x22font-weight: bold;\x22></strong>llo</p>"
    ∧ innerHTML exTree1 = "<p>Hello</p>" :=
  ⟨rfl, rfl, rfl⟩

/-- C3 counterexample: toggling a bullet item to a numbered list does
not replace the parent list: the ul is still present at its slot, with
the new ol nested inside it in place of the item. -/
theorem c3_parent_list_not_replaced :
    (toggleList exTreeList (.inText [0, 0] 0 0 1) "ol" {}).tree
      = el "div" [] [] [] [el "ul" [] [] []
          [el "ol" [] [] [] [.text "x", el "li" [] [] [] [.text "x"]]]]
    ∧ countTagNode "ul" (toggleList exTreeList (.inText [0, 0] 0 0 1) "ol" {}).tree = 1
    ∧ tagAt (toggleList exTreeList (.inText [0, 0] 0 0 1) "ol" {}).tree [0] = some "ul" :=
  ⟨rfl, rfl, rfl⟩

/-- C3 amended: for every selection whose nearest list-item ancestor
exists and whose parent list is of the other list type than requested,
the operation replaces the list item itself, in place at its slot (the
parent list remains, with its tag unchanged), with a new list of the
requested type holding the item inner content followed by an appended
extra item with the same inner content, duplicating the content
area. -/
theorem c3_item_replaced_by_nested_list (root : DNode) (r : DRange) (ty ty2 : String)
    (st : EditorState) (ep q : List Nat) (tli : String)
    (sdli : List (String × String)) (clli : List String)
    (atsli : List (String × String)) (liKids : DForest)
    (hty : ty = "ul" ∨ ty = "ol")
    (hty2 : ty2 = "ul" ∨ ty2 = "ol")
    (hne : ty2 ≠ ty)
    (hep : elementPathOf root (containerPath r) = some ep)
    (hli : closestPath root ep ["li"] = some q)
    (hq : getNode q root = some (.elem tli sdli clli atsli liKids))
    (hqne : q ≠ [])
    (hpar : tagAt root q.dropLast = some ty2) :
    (toggleList root r ty st).tree
      = modifyAt (fun _ => .elem ty [] [] []
          (DForest.ofList (liKids.toList ++ [.elem "li" [] [] [] liKids]))) q root
    ∧ getNode q (toggleList root r ty st).tree
      = some (.elem ty [] [] []
          (DForest.ofList (liKids.toList ++ [.elem "li" [] [] [] liKids])))
    ∧ tagAt (toggleList root r ty st).tree q.dropLast = some ty2 := by
  have hsome : ¬((some ty2 : Option String) = some ty) :=
    fun hcontra => hne (Option.some.inj hcontra)
  have htree : (toggleList root r ty st).tree
      = modifyAt (fun _ => DNode.elem ty [] [] []
          (DForest.ofList (liKids.toList ++ [DNode.elem "li" [] [] [] liKids]))) q root := by
    simp only [toggleList, hep, hli, hq, if_neg hqne, hpar, if_neg hsome]
  refine ⟨htree, ?_, ?_⟩
  · rw [htree]
    exact getNode_modifyAt _ q root _ hq
  · have hq2 : getNode (q.dropLast ++ [q.getLast hqne]) root
        = some (DNode.elem tli sdli clli atsli liKids) := by
      rw [List.dropLast_append_getLast hqne]
      exact hq
    rw [getNode_append] at hq2
    cases hx : getNode q.dropLast root with
    | none => rw [hx] at hq2; simp at hq2
    | some pn =>
      have hch := tagAt_modifyAt_child
        (fun _ => DNode.elem ty [] [] []
          (DForest.ofList (liKids.toList ++ [DNode.elem "li" [] [] [] liKids])))
        q.dropLast (q.getLast hqne) root pn hx
      rw [List.dropLast_append_getLast hqne] at hch
      rw [htree, hch]
      exact hpar

/-- C3 amended witness: the bullet item holding the text x, toggled to
a numbered list, is replaced in place by the nested numbered list with
the duplicated item while the surrounding ul keeps its tag. -/
theorem c3_item_replaced_by_nested_list_witness :
    (elementPathOf exTreeList (containerPath (DRange.inText [0, 0] 0 0 1)) = some [0, 0])
    ∧ (closestPath exTreeList [0, 0] ["li"] = some [0, 0])
    ∧ (tagAt exTreeList [0] = some "ul")
    ∧ (toggleList exTreeList (.inText [0, 0] 0 0 1) "ol" {}).tree
      = el "div" [] [] [] [el "ul" [] [] []
          [el "ol" [] [] [] [.text "x", el "li" [] [] [] [.text "x"]]]]
    ∧ getNode [0, 0] (toggleList exTreeList (.inText [0, 0] 0 0 1) "ol" {}).tree
      = some (el "ol" [] [] [] [.text "x", el "li" [] [] [] [.text "x"]])
    ∧ tagAt (toggleList exTreeList (.inText [0, 0] 0 0 1) "ol" {}).tree [0]
      = some "ul" := by
  have h := c3_item_replaced_by_nested_list exTreeList (.inText [0, 0] 0 0 1) "ol" "ul"
    {} [0, 0] [0, 0] "li" [] [] [] (DForest.ofList [.text "x"])
    (Or.inr rfl) (Or.inl rfl) (by decide) rfl rfl rfl (by decide) rfl
  refine ⟨rfl, rfl, rfl, ?_, h.2.1, h.2.2⟩
  rw [h.1]
  rfl

/-- C4 counterexample: when the common ancestor container of the range
is itself the paragraph element, the code replaces an outer block (here
the inner div) instead of the nearest block ancestor of the selection:
the paragraph, which is the container and nearest block ancestor,
survives inside the new heading. -/
theorem c4_container_element_skips_nearest_block :
    (handleHeadingChange exTreeNestedDiv (.overNodes [0, 0] 0 1) "h1" {}).toOption.map
        (fun m => m.tree)
      = some (el "div" [] [] [] [el "h1" [] [] [] [el "p" [] [] [] [.text "AB"]]])
    ∧ countTagNode "p"
        (el "div" [] [] [] [el "h1" [] [] [] [el "p" [] [] [] [.text "AB"]]]) = 1
    ∧ tagAt exTreeNestedDiv (containerPath (.overNodes [0, 0] 0 1)) = some "p" :=
  ⟨rfl, rfl, rfl⟩

/-- C4 amended: for every selection, the element the block-type change
replaces is the nearest block-vocabulary element at or above the parent
element of the range common ancestor container (so a container that is
itself a block element is skipped, see the counterexample); when found
below the surface root, it is replaced in place by a new element of the
target tag holding its entire child content, hence with identical inner
text.  For a selection inside a paragraph text node this nearest block
is the paragraph, which then no longer exists in the tree. -/
theorem c4_nearest_block_above_parent_replaced (root : DNode) (r : DRange)
    (selectValue : String) (st : EditorState) (q : List Nat) (tb : String)
    (sdb : List (String × String)) (clb : List String)
    (atsb : List (String × String)) (kidsb : DForest)
    (hcp : containerPath r ≠ [])
    (hcl : closestPath root (containerPath r).dropLast headingVocab = some q)
    (hq : getNode q root = some (.elem tb sdb clb atsb kidsb))
    (hqne : q ≠ [])
    (hv : selectValue ≠ "") :
    ∃ m : MutResult, handleHeadingChange root r selectValue st = .ok m ∧
      m.tree = modifyAt (fun _ => .elem selectValue [] [] [] kidsb) q root ∧
      getNode q m.tree = some (.elem selectValue [] [] [] kidsb) ∧
      textContentNode (.elem selectValue [] [] [] kidsb)
        = textContentNode (.elem tb sdb clb atsb kidsb) := by
  refine ⟨⟨modifyAt (fun _ => .elem selectValue [] [] [] kidsb) q root,
      rangeAfterReplace q r,
      (updateEditorState (modifyAt (fun _ => .elem selectValue [] [] [] kidsb) q root)
        (rangeAfterReplace q r) st).1,
      some ((updateEditorState (modifyAt (fun _ => .elem selectValue [] [] [] kidsb) q root)
        (rangeAfterReplace q r) st).2)⟩, ?_, rfl, ?_, rfl⟩
  · simp only [handleHeadingChange, if_neg hcp, hcl, hq, if_neg hqne, if_neg hv]
  · exact getNode_modifyAt _ q root _ hq

/-- C4 amended witness: inside the text of the Hello paragraph, the
nearest block above the text parent is the paragraph itself; changing
the block to h1 replaces it in place, keeps the inner text, and no
paragraph remains in the tree. -/
theorem c4_nearest_block_above_parent_replaced_witness :
    (containerPath (DRange.inText [0] 0 0 5) ≠ [])
    ∧ (closestPath exTree1 (containerPath (DRange.inText [0] 0 0 5)).dropLast headingVocab
        = some [0])
    ∧ (∃ m : MutResult, handleHeadingChange exTree1 (.inText [0] 0 0 5) "h1" {} = .ok m ∧
        m.tree = el "div" [] [] [] [el "h1" [] [] [] [.text "Hello"]] ∧
        getNode [0] m.tree = some (el "h1" [] [] [] [.text "Hello"]) ∧
        textContentNode (el "h1" [] [] [] [.text "Hello"])
          = textContentNode (el "p" [] [] [] [.text "Hello"]))
    ∧ countTagNode "p" (el "div" [] [] [] [el "h1" [] [] [] [.text "Hello"]]) = 0 := by
  have h := c4_nearest_block_above_parent_replaced exTree1 (.inText [0] 0 0 5) "h1" {}
    [0] "p" [] [] [] (DForest.ofList [.text "Hello"])
    (by decide) rfl rfl (by decide) (by decide)
  obtain ⟨m, hm, ht, hg, htc⟩ := h
  refine ⟨by decide, rfl, ⟨m, hm, ?_, hg, htc⟩, rfl⟩
  rw [ht]
  rfl

/-- C5: with a non-whitespace selection and a non-empty URL, link
insertion wraps the selected range in an anchor whose href is the URL
prefixed with https:// exactly when the URL does not begin with http
(unchanged otherwise), target is _blank and rel contains both noopener
and noreferrer. -/
theorem c5_link_normalization (root : DNode) (r : DRange) (url : String)
    (st : EditorState) (t2 : DNode) (r2 : DRange)
    (hsel : strTrim (rangeToString root r) ≠ "")
    (hurl : url ≠ "")
    (hw : surroundContents root r "a" [] (linkAttrs url) = .ok (t2, r2)) :
    handleCreateLink root r (some url) st
      = .ok ⟨t2, r2, (updateEditorState t2 r2 st).1,
             some (updateEditorState t2 r2 st).2, false, true⟩
    ∧ (∃ p idx, r2 = .overNodes p idx (idx + 1) ∧
        getNode (p ++ [idx]) t2 = some (el "a" [] [] (linkAttrs url) (cloneContents root r)))
    ∧ attrLookup (linkAttrs url) "href"
        = some (if strStartsWith url "http" then url else "https://" ++ url)
    ∧ attrLookup (linkAttrs url) "target" = some "_blank"
    ∧ (∃ rel, attrLookup (linkAttrs url) "rel" = some rel
        ∧ containsSub "noopener" rel = true ∧ containsSub "noreferrer" rel = true) := by
  refine ⟨?_, surroundContents_ok root r "a" [] (linkAttrs url) t2 r2 hw, rfl, rfl,
    "noopener noreferrer", rfl, by decide, by decide⟩
  simp only [handleCreateLink, if_neg hsel, if_neg hurl, hw]

/-- C5 witness: link creation over the selected text example with the
entered URL example.com. -/
theorem c5_link_normalization_witness :
    (strTrim (rangeToString exTreeLink (.inText [] 0 0 7)) ≠ "")
    ∧ handleCreateLink exTreeLink (.inText [] 0 0 7) (some "example.com") {}
      = .ok ⟨exLinkResultTree, .overNodes [] 1 2,
             (updateEditorState exLinkResultTree (.overNodes [] 1 2) {}).1,
             some (updateEditorState exLinkResultTree (.overNodes [] 1 2) {}).2,
             false, true⟩
    ∧ getNode [1] exLinkResultTree
      = some (el "a" [] [] (linkAttrs "example.com") [.text "example"]) := by
  have h := c5_link_normalization exTreeLink (.inText [] 0 0 7) "example.com" {}
    exLinkResultTree (.overNodes [] 1 2) (by decide) (by decide) rfl
  exact ⟨by decide, h.1, rfl⟩

/-- C6: a link insertion attempt with an empty or whitespace-only
selection text, or with an empty (or cancelled) entered URL, aborts
after a blocking user interaction (alert respectively prompt) and the
document tree is byte-for-byte unchanged. -/
theorem c6_link_validation_no_mutation (root : DNode) (r : DRange) (pin : Option String)
    (st : EditorState)
    (h : strTrim (rangeToString root r) = "" ∨ pin = none ∨ pin = some "") :
    ∃ res : LinkResult, handleCreateLink root r pin st = .ok res ∧
      res.tree = root ∧ innerHTML res.tree = innerHTML root ∧
      (res.alerted || res.prompted) = true ∧ res.content = none := by
  by_cases hs : strTrim (rangeToString root r) = ""
  · exact ⟨⟨root, r, st, none, true, false⟩, by simp [handleCreateLink, hs],
      rfl, rfl, rfl, rfl⟩
  · rcases h with h | h | h
    · exact absurd h hs
    · subst h
      exact ⟨⟨root, r, st, none, false, true⟩, by simp [handleCreateLink, hs],
        rfl, rfl, rfl, rfl⟩
    · subst h
      exact ⟨⟨root, r, st, none, false, true⟩, by simp [handleCreateLink, hs],
        rfl, rfl, rfl, rfl⟩

/-- C6 witness: a collapsed (hence empty-text) selection aborts with
the alert and leaves the tree unchanged. -/
theorem c6_link_validation_no_mutation_witness :
    (strTrim (rangeToString exTreeLink (.inText [] 0 2 2)) = "")
    ∧ ∃ res : LinkResult,
        handleCreateLink exTreeLink (.inText [] 0 2 2) (some "x") {} = .ok res ∧
        res.tree = exTreeLink ∧ innerHTML res.tree = innerHTML exTreeLink ∧
        (res.alerted || res.prompted) = true ∧ res.content = none :=
  ⟨by decide, c6_link_validation_no_mutation exTreeLink (.inText [] 0 2 2) (some "x") {}
    (Or.inl (by decide))⟩

/-- C7: for a size index from the fixed menu, the font-size operation
wraps the range in a span whose inline font-size is exactly the index
times four plus twelve pixels; index 3 gives 24px and index 7 gives
40px. -/
theorem c7_font_size_mapping (root : DNode) (r : DRange) (st : EditorState)
    (size : String) (t2 : DNode) (r2 : DRange)
    (hmenu : size ∈ ["1", "3", "5", "7"])
    (hw : surroundContents root r "span"
        [("font-size", toString (parseNatD size * 4 + 12) ++ "px")] []
      = .ok (t2, r2)) :
    handleFontSizeChange root r size st
      = .ok ⟨t2, r2, (updateEditorState t2 r2 st).1, some (updateEditorState t2 r2 st).2⟩
    ∧ (∃ p idx, r2 = .overNodes p idx (idx + 1) ∧
        getNode (p ++ [idx]) t2
          = some (el "span"
              [("font-size", toString (parseNatD size * 4 + 12) ++ "px")] [] []
              (cloneContents root r)))
    ∧ (size = "3" → toString (parseNatD size * 4 + 12) ++ "px" = "24px")
    ∧ (size = "7" → toString (parseNatD size * 4 + 12) ++ "px" = "40px") := by
  have hne : size ≠ "" := by
    rcases (by simpa using hmenu : size = "1" ∨ size = "3" ∨ size = "5" ∨ size = "7")
      with h | h | h | h <;> subst h <;> decide
  refine ⟨?_, surroundContents_ok root r "span" _ [] t2 r2 hw, ?_, ?_⟩
  · simp only [handleFontSizeChange, if_neg hne, hw]
  · intro h3; subst h3; rfl
  · intro h7; subst h7; rfl

/-- C7 witness: menu index 3 over the selected text hello produces the
24px span. -/
theorem c7_font_size_mapping_witness :
    ("3" ∈ ["1", "3", "5", "7"])
    ∧ handleFontSizeChange exTreeFont (.inText [] 0 0 5) "3" {}
      = .ok ⟨exFontResultTree, .overNodes [] 1 2,
             (updateEditorState exFontResultTree (.overNodes [] 1 2) {}).1,
             some (updateEditorState exFontResultTree (.overNodes [] 1 2) {}).2⟩ := by
  have h := c7_font_size_mapping exTreeFont (.inText [] 0 0 5) {} "3"
    exFontResultTree (.overNodes [] 1 2) (by decide) rfl
  exact ⟨by decide, h.1⟩

/-- C8: after an alignment operation on a resolved block container the
container carries exactly one of the three alignment class names, the
requested one, every other alignment class is gone, and the inline
text-align property holds the requested value. -/
theorem c8_alignment_exclusive (root : DNode) (r : DRange) (a : String) (st : EditorState)
    (bp : List Nat) (tg : String) (sd : List (String × String)) (cl : List String)
    (ats : List (String × String)) (kids : DForest)
    (ha : a ∈ ["left", "center", "right"])
    (hbp : elementPathOf root (containerPath r) = some bp)
    (hel : getNode bp root = some (.elem tg sd cl ats kids)) :
    getNode bp (formatAlignment root r a st).tree
      = some (.elem tg (setDecl sd "text-align" a)
          ((cl.filter (fun c => !(alignClassNames.contains c))) ++ ["text-" ++ a]) ats kids)
    ∧ styleLookup (setDecl sd "text-align" a) "text-align" = some a
    ∧ ((cl.filter (fun c => !(alignClassNames.contains c))) ++ ["text-" ++ a]).countP
        (fun c => alignClassNames.contains c) = 1
    ∧ ("text-" ++ a) ∈ ((cl.filter (fun c => !(alignClassNames.contains c))) ++ ["text-" ++ a])
    ∧ ∀ c, alignClassNames.contains c = true → c ≠ "text-" ++ a →
        c ∉ ((cl.filter (fun c2 => !(alignClassNames.contains c2))) ++ ["text-" ++ a]) := by
  rcases (by simpa using ha : a = "left" ∨ a = "center" ∨ a = "right") with h | h | h <;>
    subst h <;>
    refine ⟨?_, styleLookup_setDecl sd "text-align" _,
      countP_align cl _ (by decide), by simp,
      fun c hc hne => align_not_mem cl c _ hc hne⟩ <;>
    · simp only [formatAlignment, hbp, hel]
      exact getNode_modifyAt _ bp root _ hel

/-- C8 witness: centering a paragraph that carried text-left and an
unrelated class leaves exactly text-center plus the unrelated class and
sets the inline text-align. -/
theorem c8_alignment_exclusive_witness :
    (elementPathOf exTreeAlign (containerPath (.inText [0] 0 0 1)) = some [0])
    ∧ getNode [0] (formatAlignment exTreeAlign (.inText [0] 0 0 1) "center" {}).tree
      = some (.elem "p" [("text-align", "center")] ["big", "text-center"] []
          (DForest.ofList [.text "t"])) := by
  have h := c8_alignment_exclusive exTreeAlign (.inText [0] 0 0 1) "center" {} [0]
    "p" [] ["text-left", "big"] [] (DForest.ofList [.text "t"]) (by decide) rfl rfl
  exact ⟨rfl, h.1⟩

/-- C9 counterexample: with the selection anchored in a span whose
chain below the editor root has no block-vocabulary tag, the inspector
reports div (the editor root matched by closest), not the claimed
default p. -/
theorem c9_no_default_to_p :
    tagAt exTreeSpan [0] = some "span"
    ∧ (updateEditorState exTreeSpan (.inText [0] 0 1 1) {}).1.currentBlock = "div"
    ∧ (updateEditorState exTreeSpan (.inText [0] 0 1 1) {}).1.currentBlock ≠ "p" :=
  ⟨rfl, rfl, by decide⟩

/-- C9 amended: the inspector reports the tag of the nearest
self-or-ancestor element of the anchor whose tag is in the block
vocabulary, the editor root included (a div, so a selection with no
vocabulary ancestor below the root reports div); when the walk finds
nothing at all the previous block value is kept, whose initial value is
p. -/
theorem c9_block_report (root : DNode) (r : DRange) (st : EditorState) (ep : List Nat)
    (hep : elementPathOf root (containerPath r) = some ep) :
    (updateEditorState root r st).1.currentBlock
      = match closestPath root ep blockVocab with
        | some q => (tagAt root q).getD st.currentBlock
        | none => st.currentBlock := by
  simp only [updateEditorState, hep]

/-- C9 amended witness: the span selection resolves the anchor at the
span path and the report equals the closest vocabulary tag, div. -/
theorem c9_block_report_witness :
    (elementPathOf exTreeSpan (containerPath (.inText [0] 0 1 1)) = some [0])
    ∧ (updateEditorState exTreeSpan (.inText [0] 0 1 1) {}).1.currentBlock
      = match closestPath exTreeSpan [0] blockVocab with
        | some q => (tagAt exTreeSpan q).getD "p"
        | none => "p" :=
  ⟨rfl, c9_block_report exTreeSpan (.inText [0] 0 1 1) {} [0] rfl⟩

/-- C10: whenever the control or meta modifier is held, the keydown
handler invokes preventDefault before dispatching on the key, and for
key combinations outside the handled set no editor operation runs. -/
theorem c10_modifier_prevents_default (e : KeyEvent)
    (h : e.ctrlKey = true ∨ e.metaKey = true) :
    (handleKeyDown e).1 = true
    ∧ (strToLower e.key ∉ (["b", "i", "u", "z", "y"] : List String) →
        (handleKeyDown e).2 = none) := by
  have hm : (e.ctrlKey || e.metaKey) = true := by
    rcases h with h | h <;> simp [h]
  constructor
  · rw [handleKeyDown, if_pos hm]
    split_ifs <;> rfl
  · intro hk
    have h1 : ¬ strToLower e.key = "b" := fun hx => hk (by simp [hx])
    have h2 : ¬ strToLower e.key = "i" := fun hx => hk (by simp [hx])
    have h3 : ¬ strToLower e.key = "u" := fun hx => hk (by simp [hx])
    have h4 : ¬ strToLower e.key = "z" := fun hx => hk (by simp [hx])
    have h5 : ¬ strToLower e.key = "y" := fun hx => hk (by simp [hx])
    rw [handleKeyDown, if_pos hm]
    simp only [if_neg h1, if_neg h2, if_neg h3, if_neg h4, if_neg h5]

/-- C10 witness: control plus c suppresses the platform default and
runs no editor operation. -/
theorem c10_modifier_prevents_default_witness :
    (handleKeyDown ⟨"c", true, false⟩).1 = true
    ∧ (handleKeyDown ⟨"c", true, false⟩).2 = none :=
  ⟨(c10_modifier_prevents_default ⟨"c", true, false⟩ (Or.inl rfl)).1,
   (c10_modifier_prevents_default ⟨"c", true, false⟩ (Or.inl rfl)).2 (by decide)⟩

end RTE
